import Mathlib

/-!
# Verification of the ScoreOSMD row-segmentation and navigation engine

Shallow embedding of `src/ScoreOSMD.jsx`.  Staff-line geometry is modelled
as a list of integer content-space top coordinates (the source rounds
`getBoundingClientRect().top` with `Math.round`, so post-rounding values are
integers; content coordinates differ from viewport coordinates only by an
integer shift, which every computation below is invariant under).
Navigation state (`rowsRef`, `idxRef`, `card.scrollTop`) is explicit state
passing; `card.scrollTo` is modelled at its settled target.
-/

/-- A bucket (`{ y, el }` in the source): a deduplicated staff-line top
coordinate `y` together with the identity of the staff-line element that
created the bucket, modelled as its discovery index `el`. -/
structure Bucket where
  y : Int
  el : Nat
deriving DecidableEq, Repr

/-- `Math.round (m * 2.2)` for an integer `m`, computed exactly:
`Math.round x = ⌊x + 1/2⌋` and `m * 2.2 + 1/2 = (22*m + 5)/10`.  The exact
value `22*m/10` is never a half-integer (its fractional part is a multiple
of 1/5), so this agrees with the source's floating-point computation for
all realistic magnitudes. -/
def jsRound22 (m : Int) : Int := (22 * m + 5).fdiv 10

/-- One pass of the bucketing loop of `captureRows`: for each staff-line
top `y` (in discovery order, with running discovery index `i`), join the
first existing bucket whose coordinate is within `EPS_SMALL = 2`
(`buckets.find(it => Math.abs(it.y - y) < EPS_SMALL)`; a found bucket is
left unchanged), else push a new bucket `{ y, el }`. -/
def mkBucketsAux (i : Nat) (acc : List Bucket) : List Int → List Bucket
  | [] => acc
  | y :: t =>
    if acc.any (fun b => (b.y - y).natAbs < 2) then mkBucketsAux (i + 1) acc t
    else mkBucketsAux (i + 1) (acc ++ [⟨y, i⟩]) t

/-- The bucketing loop of `captureRows`, started on an empty bucket list. -/
def mkBuckets (ys : List Int) : List Bucket := mkBucketsAux 0 [] ys

/-- Insert into a key-sorted list (ascending, stable). -/
def insertByKey {α : Type} (key : α → Int) (a : α) : List α → List α
  | [] => [a]
  | b :: t => if key a ≤ key b then a :: b :: t else b :: insertByKey key a t

/-- Ascending stable sort by an integer key.  Models the source's
`Array.prototype.sort` with comparator `(a, b) => key a - key b`
(ES2019 sort is stable; on the bucket lists arising here all keys are
pairwise distinct, so any correct ascending sort yields the same list). -/
def sortByKey {α : Type} (key : α → Int) : List α → List α
  | [] => []
  | a :: t => insertByKey key a (sortByKey key t)

/-- Consecutive differences (`deltas` in the source):
`for i in 1..len-1, push l[i] - l[i-1]`. -/
def diffs : List Int → List Int
  | [] => []
  | [_] => []
  | a :: b :: t => (b - a) :: diffs (b :: t)

/-- `deltas.sort((a,b) => a-b); deltas.length ? deltas[(deltas.length-1) >> 1] : 0`:
the lower median of the sorted gap list, `0` when there are no gaps. -/
def medianOf (ds : List Int) : Int :=
  let s := sortByKey id ds
  if s.length = 0 then 0 else s.getD ((s.length - 1) / 2) 0

/-- `GAP = Math.max(40, Math.round(median * 2.2))`. -/
def gapThreshold (ds : List Int) : Int := max 40 (jsRound22 (medianOf ds))

/-- Step 1 of `captureRows` after bucketing: `buckets.sort((a,b) => a.y - b.y)`. -/
def sortedBuckets (ys : List Int) : List Bucket := sortByKey Bucket.y (mkBuckets ys)

/-- The gap list of `captureRows`: consecutive differences of the sorted
bucket coordinates. -/
def deltasOf (ys : List Int) : List Int := diffs ((sortedBuckets ys).map Bucket.y)

/-- The system-separation threshold `GAP` derived inside `captureRows`. -/
def thresholdOf (ys : List Int) : Int := gapThreshold (deltasOf ys)

/-- The anchor-picking loop of `captureRows` past its first bucket:
`prev` is the bucket at position `i-1`; a bucket `c` is pushed exactly when
`c.y - prev.y > GAP`. -/
def anchorsAux (gap : Int) : Bucket → List Bucket → List Bucket
  | _, [] => []
  | prev, c :: t =>
    if c.y - prev.y > gap then c :: anchorsAux gap c t else anchorsAux gap c t

/-- Step 3 of `captureRows`: the first bucket is always an anchor; any later
bucket whose gap from its immediate predecessor exceeds `gap` is an anchor. -/
def pickAnchors (gap : Int) : List Bucket → List Bucket
  | [] => []
  | b :: rest => b :: anchorsAux gap b rest

/-- `captureRows` (the pure row-extraction part): bucket the staff-line
tops, sort by coordinate, derive `GAP` from the sorted consecutive gaps,
and pick one anchor per system. -/
def captureRows (ys : List Int) : List Bucket :=
  pickAnchors (thresholdOf ys) (sortedBuckets ys)

/-- Navigation state: `rowsRef.current` as the anchors' content-space top
coordinates (`el.getBoundingClientRect().top - cardTop + card.scrollTop`,
which is independent of the current scroll), `idxRef.current`, and
`card.scrollTop`. -/
structure NavState where
  rows : List Int
  idx : Nat
  scrollTop : Int
deriving DecidableEq, Repr

/-- The scan of `syncIdxToScroll`: `best = 0; for i, if y_i <= target then
best = i else break`, i.e. one less (bottoming out at 0) than the length of
the longest prefix of `rows` whose entries are `≤ target`. -/
def bestIdx (rows : List Int) (target : Int) : Nat :=
  (rows.takeWhile (fun y => decide (y ≤ target))).length - 1

/-- `syncIdxToScroll` (`syncFromScroll` in the spec): no-op on an empty
anchor list, otherwise recompute the index from
`target = card.scrollTop + 4`. -/
def syncIdxToScroll (s : NavState) : NavState :=
  if s.rows.isEmpty then s
  else { s with idx := bestIdx s.rows (s.scrollTop + 4) }

/-- `scrollToIdx` (`gotoIndex` in the spec): no-op on an empty anchor list,
otherwise clamp `i` to `[0, rows.length - 1]`, store it as the current
index and scroll the viewport so that row's top is at the viewport top
(modelled at the settled scroll target). -/
def scrollToIdx (s : NavState) (i : Int) : NavState :=
  if s.rows.isEmpty then s
  else
    let clamped := (max 0 (min i ((s.rows.length : Int) - 1))).toNat
    { s with idx := clamped, scrollTop := s.rows.getD clamped 0 }

/-- The spec's `advance(step)`: `scrollToIdx (idxRef.current + step)`. -/
def advance (s : NavState) (step : Int) : NavState :=
  scrollToIdx s ((s.idx : Int) + step)

/-- `const next = () => scrollToIdx(idxRef.current + step)`. -/
def next (s : NavState) (step : Int) : NavState :=
  scrollToIdx s ((s.idx : Int) + step)

/-- `const prev = () => scrollToIdx(idxRef.current - step)`. -/
def prev (s : NavState) (step : Int) : NavState :=
  scrollToIdx s ((s.idx : Int) - step)

/-- `captureRows` as a state transformer: rebuild `rowsRef.current` from
the current staff-line geometry `ys`, then `syncIdxToScroll()`.  (When the
rendered surface is absent the source leaves `rowsRef` empty and returns
early; that yields the same state as bucketing an empty geometry, since
`syncIdxToScroll` no-ops on an empty row list.) -/
def captureRowsState (ys : List Int) (s : NavState) : NavState :=
  syncIdxToScroll { s with rows := (captureRows ys).map Bucket.y }

/-- The ResizeObserver callback: `captureRows(); scrollToIdx(idxRef.current)`. -/
def resizeRecapture (ys : List Int) (s : NavState) : NavState :=
  let s1 := captureRowsState ys s
  scrollToIdx s1 (s1.idx : Int)

/-- `onKeyDown`: Down/PageDown/Space fire `next()` and `preventDefault()`
(the returned flag); Up/PageUp fire `prev()` with the same flag; any other
key leaves the state untouched and does not suppress the default. -/
def onKeyDown (s : NavState) (step : Int) (key : String) : NavState × Bool :=
  if ["ArrowDown", "PageDown", " "].contains key then (next s step, true)
  else if ["ArrowUp", "PageUp"].contains key then (prev s step, true)
  else (s, false)

/-- A pointer event: its button and its client X coordinate.  Coordinates
are exact rationals (browser layout values are binary rationals). -/
structure PointerEvent where
  button : Int
  clientX : Rat
deriving DecidableEq

/-- `onPointerDown`: ignore non-primary buttons; split the viewport at its
horizontal midpoint, `e.clientX - rect.left >= rect.width / 2` is `next()`,
otherwise `prev()`. -/
def onPointerDown (s : NavState) (step : Int) (e : PointerEvent)
    (rectLeft rectWidth : Rat) : NavState :=
  if e.button ≠ 0 then s
  else if e.clientX - rectLeft ≥ rectWidth / 2 then next s step
  else prev s step

/-- Synthetic geometry: one system of `n` staff lines starting at `s` with
within-system spacing `d`. -/
def systemLines (s : Int) (n : Nat) (d : Int) : List Int :=
  (List.range n).map (fun j : Nat => s + (j : Int) * d)

/-- Synthetic geometry: the systems with the given start coordinates, each
of `n` lines spaced `d`, concatenated top to bottom (discovery order). -/
def synthetic (starts : List Int) (n : Nat) (d : Int) : List Int :=
  match starts with
  | [] => []
  | s :: rest => systemLines s n d ++ synthetic rest n d

/-- Spec-side description of the expected extraction result (for the
clustering-correctness comparison): one anchor per system, carrying the
system's start coordinate and the flat discovery index of the system's
first staff line (`base`, `base + n`, ...). -/
def specFirstLineAnchors : List Int → Nat → Nat → List Bucket
  | [], _, _ => []
  | s :: rest, n, base => ⟨s, base⟩ :: specFirstLineAnchors rest n (base + n)

/-- One bucket per coordinate, tagged with consecutive discovery indices
from `i`: the bucket list the scan produces when every coordinate is at
least the jitter tolerance away from all earlier ones. -/
def bucketsOf : List Int → Nat → List Bucket
  | [], _ => []
  | y :: t, i => ⟨y, i⟩ :: bucketsOf t (i + 1)

/-! ## Basic lemmas about the navigation state transformers -/

lemma syncIdxToScroll_rows (s : NavState) : (syncIdxToScroll s).rows = s.rows := by
  unfold syncIdxToScroll; split <;> rfl

lemma syncIdxToScroll_scrollTop (s : NavState) :
    (syncIdxToScroll s).scrollTop = s.scrollTop := by
  unfold syncIdxToScroll; split <;> rfl

lemma syncIdxToScroll_idx (s : NavState) (hne : s.rows ≠ []) :
    (syncIdxToScroll s).idx = bestIdx s.rows (s.scrollTop + 4) := by
  have hE : s.rows.isEmpty = false := by simpa [List.isEmpty_iff] using hne
  simp [syncIdxToScroll, hE]

lemma scrollToIdx_rows (s : NavState) (i : Int) : (scrollToIdx s i).rows = s.rows := by
  unfold scrollToIdx; split <;> rfl

lemma takeWhile_len_le (p : Int → Bool) (l : List Int) :
    (l.takeWhile p).length ≤ l.length := by
  induction l with
  | nil => simp
  | cons a t ih =>
    rw [List.takeWhile_cons]
    split
    · simpa using ih
    · simp

lemma bestIdx_lt (rows : List Int) (target : Int) (hne : rows ≠ []) :
    bestIdx rows target < rows.length := by
  have h1 := takeWhile_len_le (fun y => decide (y ≤ target)) rows
  have h2 : 0 < rows.length := List.length_pos.mpr hne
  unfold bestIdx
  omega

/-! ## C4: the bucketing step -/

lemma mkBucketsAux_append_single (y : Int) :
    ∀ (l : List Int) (i : Nat) (acc : List Bucket),
      mkBucketsAux i acc (l ++ [y]) =
        if (mkBucketsAux i acc l).any (fun b => (b.y - y).natAbs < 2)
        then mkBucketsAux i acc l
        else mkBucketsAux i acc l ++ [⟨y, i + l.length⟩]
  | [], i, acc => by simp [mkBucketsAux]
  | a :: l, i, acc => by
    have harith : i + (a :: l).length = (i + 1) + l.length := by
      simp [List.length_cons]; omega
    simp only [List.cons_append, mkBucketsAux, harith]
    split
    · exact mkBucketsAux_append_single y l (i + 1) acc
    · exact mkBucketsAux_append_single y l (i + 1) (acc ++ [⟨a, i⟩])

/-- C4 (amended): scanning in discovery order, a newly encountered rounded
top coordinate `y` joins an existing bucket (leaving the bucket list
unchanged) exactly when some already-created bucket's coordinate differs
from `y` by less than the 2 px jitter tolerance, and otherwise starts a
new bucket carrying `y` and its discovery index.  (The pairwise-position
reading of the claim is order-dependent and false; see the
counterexample.) -/
theorem mkBuckets_append_step (ys : List Int) (y : Int) :
    mkBuckets (ys ++ [y]) =
      if (mkBuckets ys).any (fun b => (b.y - y).natAbs < 2)
      then mkBuckets ys
      else mkBuckets ys ++ [⟨y, ys.length⟩] := by
  simpa using mkBucketsAux_append_single y ys 0 []

/-- C4 counterexample: with discovery order `[5, 4, 6]` the positions `4`
and `6` differ by `2 ≥ 2` px yet both collapse into the single bucket at
coordinate `5`; with discovery order `[0, 2, 1]` the positions `2` and `1`
differ by `1 < 2` px yet end up in different buckets. -/
theorem mkBuckets_pairwise_cex :
    mkBuckets [5, 4, 6] = [⟨5, 0⟩] ∧ ((6 : Int) - 4).natAbs ≥ 2 ∧
    mkBuckets [0, 2, 1] = [⟨0, 0⟩, ⟨2, 1⟩] ∧ ((2 : Int) - 1).natAbs < 2 := by
  decide

/-! ## C6: clamping and empty-list no-ops -/

/-- C6: `gotoIndex`/`advance` on an empty anchor list are complete no-ops
(neither the index nor the scroll state changes); on a non-empty list the
written index is `i` clamped to `[0, rowCount-1]`, so a negative step from
index 0 stays at 0 and a non-negative step from the last index stays at
the last index. -/
theorem scrollToIdx_clamp_noop (s : NavState) (i step : Int) :
    (s.rows = [] → scrollToIdx s i = s ∧ advance s step = s) ∧
    (s.rows ≠ [] →
      ((scrollToIdx s i).idx : Int) = max 0 (min i ((s.rows.length : Int) - 1)) ∧
      (scrollToIdx s i).idx < s.rows.length ∧
      (s.idx = 0 → step ≤ 0 → (advance s step).idx = 0) ∧
      (s.idx + 1 = s.rows.length → 0 ≤ step → (advance s step).idx = s.idx)) := by
  constructor
  · intro h
    constructor <;> simp [scrollToIdx, advance, h]
  · intro h
    have hL : 0 < s.rows.length := List.length_pos.mpr h
    have hE : s.rows.isEmpty = false := by simpa [List.isEmpty_iff] using h
    refine ⟨?_, ?_, ?_, ?_⟩
    · simp only [scrollToIdx, hE, Bool.false_eq_true, if_false]
      omega
    · simp only [scrollToIdx, hE, Bool.false_eq_true, if_false]
      omega
    · intro h0 hstep
      simp only [advance, scrollToIdx, hE, Bool.false_eq_true, if_false, h0]
      omega
    · intro hlast hstep
      simp only [advance, scrollToIdx, hE, Bool.false_eq_true, if_false]
      omega

/-- Witness for C6 at concrete inputs. -/
theorem scrollToIdx_clamp_noop_witness :
    scrollToIdx ⟨[], 3, 7⟩ 5 = ⟨[], 3, 7⟩ ∧
    (advance ⟨[0, 50, 100], 0, 0⟩ (-2)).idx = 0 ∧
    (advance ⟨[0, 50, 100], 2, 100⟩ 2).idx = 2 :=
  ⟨((scrollToIdx_clamp_noop ⟨[], 3, 7⟩ 5 0).1 rfl).1,
   (((scrollToIdx_clamp_noop ⟨[0, 50, 100], 0, 0⟩ 0 (-2)).2 (by decide)).2.2.1 rfl
     (by decide)),
   (((scrollToIdx_clamp_noop ⟨[0, 50, 100], 2, 100⟩ 0 2).2 (by decide)).2.2.2 (by decide)
     (by decide))⟩

/-! ## C9: the current-index invariant -/

/-- C9: after each operation that writes the current index (`scrollToIdx`,
`syncIdxToScroll`, and `captureRows`, which ends by calling
`syncIdxToScroll`), a non-empty anchor list implies the current index is a
valid position in it. -/
theorem index_invariant_ops (s : NavState) (i : Int) (ys : List Int) :
    ((scrollToIdx s i).rows ≠ [] →
      (scrollToIdx s i).idx < (scrollToIdx s i).rows.length) ∧
    ((syncIdxToScroll s).rows ≠ [] →
      (syncIdxToScroll s).idx < (syncIdxToScroll s).rows.length) ∧
    ((captureRowsState ys s).rows ≠ [] →
      (captureRowsState ys s).idx < (captureRowsState ys s).rows.length) := by
  have hsync : ∀ t : NavState, (syncIdxToScroll t).rows ≠ [] →
      (syncIdxToScroll t).idx < (syncIdxToScroll t).rows.length := by
    intro t ht
    rw [syncIdxToScroll_rows] at ht ⊢
    rw [syncIdxToScroll_idx t ht]
    exact bestIdx_lt t.rows (t.scrollTop + 4) ht
  refine ⟨?_, hsync s, hsync _⟩
  intro h
  rw [scrollToIdx_rows] at h ⊢
  have hL : 0 < s.rows.length := List.length_pos.mpr h
  have hE : s.rows.isEmpty = false := by simpa [List.isEmpty_iff] using h
  simp only [scrollToIdx, hE, Bool.false_eq_true, if_false]
  omega

/-- Witness for C9 at concrete inputs. -/
theorem index_invariant_ops_witness :
    (scrollToIdx ⟨[0, 50], 0, 0⟩ 9).idx < (scrollToIdx ⟨[0, 50], 0, 0⟩ 9).rows.length ∧
    (syncIdxToScroll ⟨[0, 50], 0, 60⟩).idx <
      (syncIdxToScroll ⟨[0, 50], 0, 60⟩).rows.length ∧
    (captureRowsState [0, 10] ⟨[], 0, 0⟩).idx <
      (captureRowsState [0, 10] ⟨[], 0, 0⟩).rows.length :=
  ⟨(index_invariant_ops ⟨[0, 50], 0, 0⟩ 9 [0, 10]).1 (by decide),
   (index_invariant_ops ⟨[0, 50], 0, 60⟩ 9 [0, 10]).2.1 (by decide),
   (index_invariant_ops ⟨[], 0, 0⟩ 9 [0, 10]).2.2 (by decide)⟩

/-! ## Sorting lemmas -/

lemma insertByKey_perm {α : Type} (key : α → Int) (a : α) (l : List α) :
    (insertByKey key a l).Perm (a :: l) := by
  induction l with
  | nil => simp [insertByKey]
  | cons b t ih =>
    unfold insertByKey
    split
    · exact List.Perm.refl _
    · exact (ih.cons b).trans (List.Perm.swap a b t)

lemma sortByKey_perm {α : Type} (key : α → Int) (l : List α) :
    (sortByKey key l).Perm l := by
  induction l with
  | nil => simp [sortByKey]
  | cons a t ih =>
    unfold sortByKey
    exact (insertByKey_perm key a (sortByKey key t)).trans (ih.cons a)

lemma insertByKey_sorted {α : Type} (key : α → Int) (a : α) (l : List α)
    (h : l.Pairwise (fun x y => key x ≤ key y)) :
    (insertByKey key a l).Pairwise (fun x y => key x ≤ key y) := by
  induction l with
  | nil => simp [insertByKey]
  | cons b t ih =>
    rcases List.pairwise_cons.mp h with ⟨hb, ht⟩
    unfold insertByKey
    split
    · rename_i hab
      refine List.pairwise_cons.mpr ⟨?_, h⟩
      intro x hx
      rcases List.mem_cons.mp hx with rfl | hx
      · exact hab
      · exact le_trans hab (hb x hx)
    · rename_i hab
      refine List.pairwise_cons.mpr ⟨?_, ih ht⟩
      intro x hx
      have hx' : x = a ∨ x ∈ t :=
        List.mem_cons.mp ((insertByKey_perm key a t).mem_iff.mp hx)
      rcases hx' with rfl | hx'
      · exact le_of_not_le hab
      · exact hb x hx'

lemma sortByKey_sorted {α : Type} (key : α → Int) (l : List α) :
    (sortByKey key l).Pairwise (fun x y => key x ≤ key y) := by
  induction l with
  | nil => simp [sortByKey]
  | cons a t ih => exact insertByKey_sorted key a _ ih

lemma sortByKey_eq_self {α : Type} (key : α → Int) (l : List α)
    (h : l.Pairwise (fun x y => key x ≤ key y)) : sortByKey key l = l := by
  induction l with
  | nil => rfl
  | cons a t ih =>
    rcases List.pairwise_cons.mp h with ⟨ha, ht⟩
    unfold sortByKey
    rw [ih ht]
    cases t with
    | nil => rfl
    | cons b t' =>
      unfold insertByKey
      rw [if_pos (ha b (List.mem_cons_self b t'))]

/-! ## The `takeWhile` scan of `syncIdxToScroll` -/

lemma takeWhile_len_spec (T : Int) (l : List Int) :
    (∀ j, j < (l.takeWhile (fun y => decide (y ≤ T))).length → l.getD j 0 ≤ T) ∧
    ((l.takeWhile (fun y => decide (y ≤ T))).length < l.length →
      T < l.getD (l.takeWhile (fun y => decide (y ≤ T))).length 0) := by
  induction l with
  | nil => simp
  | cons a t ih =>
    rw [List.takeWhile_cons]
    by_cases ha : a ≤ T
    · rw [if_pos (by simpa using ha)]
      refine ⟨?_, ?_⟩
      · intro j hj
        cases j with
        | zero => simpa using ha
        | succ j' =>
          rw [List.getD_cons_succ]
          exact ih.1 j' (by simpa using hj)
      · intro hk
        simp only [List.length_cons] at hk
        rw [List.length_cons, List.getD_cons_succ]
        exact ih.2 (by omega)
    · rw [if_neg (by simpa using ha)]
      refine ⟨by simp, ?_⟩
      intro _
      simpa using lt_of_not_le ha

lemma pairwise_getD {R : Int → Int → Prop} {l : List Int} (h : l.Pairwise R)
    {i j : Nat} (hij : i < j) (hj : j < l.length) : R (l.getD i 0) (l.getD j 0) := by
  rw [List.getD_eq_getElem l 0 (lt_trans hij hj), List.getD_eq_getElem l 0 hj]
  exact List.pairwise_iff_getElem.mp h i j (lt_trans hij hj) hj hij

lemma bestIdx_spec (rows : List Int) (T : Int) (hne : rows ≠ [])
    (hsort : rows.Pairwise (· ≤ ·)) (hhead : rows.getD 0 0 ≤ T) :
    bestIdx rows T < rows.length ∧
    rows.getD (bestIdx rows T) 0 ≤ T ∧
    ∀ j, j < rows.length → rows.getD j 0 ≤ T → j ≤ bestIdx rows T := by
  have hspec := takeWhile_len_spec T rows
  set k := (rows.takeWhile (fun y => decide (y ≤ T))).length with hk
  have hkle : k ≤ rows.length := takeWhile_len_le _ rows
  have hLpos : 0 < rows.length := List.length_pos.mpr hne
  have hk1 : 1 ≤ k := by
    by_contra hcon
    have hk0 : k = 0 := by omega
    have := hspec.2 (by omega)
    rw [hk0] at this
    omega
  have hb : bestIdx rows T = k - 1 := rfl
  refine ⟨by omega, ?_, ?_⟩
  · rw [hb]
    exact hspec.1 (k - 1) (by omega)
  · intro j hj hjT
    rw [hb]
    by_contra hcon
    have hkj : k ≤ j := by omega
    have hklt : k < rows.length := by omega
    have hTk := hspec.2 hklt
    rcases Nat.eq_or_lt_of_le hkj with rfl | hkj'
    · omega
    · have := pairwise_getD hsort hkj' hj
      omega

/-- C5: on a (sorted, as produced by extraction) non-empty anchor list
whose first anchor is at or above `scrollTop + 4`, `syncFromScroll` leaves
the anchor list and scroll offset untouched and sets the current index to
the last anchor, in top-to-bottom order, whose position is at or above
`scrollTop + 4` (the 4 px bias makes a row whose top sits essentially at
the viewport's top edge count as current); being a total function of the
state, it never throws, stale anchor data included. -/
theorem syncIdxToScroll_last_anchor (s : NavState) (hne : s.rows ≠ [])
    (hsort : s.rows.Pairwise (· ≤ ·))
    (hhead : s.rows.getD 0 0 ≤ s.scrollTop + 4) :
    (syncIdxToScroll s).rows = s.rows ∧
    (syncIdxToScroll s).scrollTop = s.scrollTop ∧
    (syncIdxToScroll s).idx < s.rows.length ∧
    s.rows.getD (syncIdxToScroll s).idx 0 ≤ s.scrollTop + 4 ∧
    ∀ j, j < s.rows.length → s.rows.getD j 0 ≤ s.scrollTop + 4 →
      j ≤ (syncIdxToScroll s).idx := by
  have hspec := bestIdx_spec s.rows (s.scrollTop + 4) hne hsort hhead
  rw [syncIdxToScroll_idx s hne]
  exact ⟨syncIdxToScroll_rows s, syncIdxToScroll_scrollTop s,
    hspec.1, hspec.2.1, hspec.2.2⟩

/-- Witness for C5 at a concrete state. -/
theorem syncIdxToScroll_last_anchor_witness :
    (syncIdxToScroll ⟨[0, 50, 100], 0, 60⟩).idx < 3 ∧
    ([0, 50, 100] : List Int).getD (syncIdxToScroll ⟨[0, 50, 100], 0, 60⟩).idx 0 ≤ 60 + 4 := by
  refine ⟨?_, ?_⟩
  · exact (syncIdxToScroll_last_anchor ⟨[0, 50, 100], 0, 60⟩ (by decide)
      (by decide) (by decide)).2.2.1
  · have h := (syncIdxToScroll_last_anchor ⟨[0, 50, 100], 0, 60⟩ (by decide)
      (by decide) (by decide)).2.2.2.1
    simpa using h

/-! ## The anchors produced by extraction are widely separated -/

lemma anchorsAux_chain (gap : Int) :
    ∀ (l : List Bucket) (prev : Bucket),
      List.Chain' (fun a b => a.y ≤ b.y) (prev :: l) →
      List.Chain' (fun a b => b.y - a.y > gap) (prev :: anchorsAux gap prev l)
  | [], prev, _ => by simp [anchorsAux]
  | c :: t, prev, h => by
    rcases List.chain'_cons.mp h with ⟨hle, hct⟩
    unfold anchorsAux
    split
    · rename_i hbreak
      exact List.chain'_cons.mpr ⟨hbreak, anchorsAux_chain gap t c hct⟩
    · rename_i hkeep
      have ihc := anchorsAux_chain gap t c hct
      rcases hA : anchorsAux gap c t with _ | ⟨a, t'⟩
      · simp
      · rw [hA] at ihc
        rcases List.chain'_cons.mp ihc with ⟨hca, htail⟩
        exact List.chain'_cons.mpr ⟨by omega, htail⟩

lemma pickAnchors_chain (gap : Int) (l : List Bucket)
    (hsort : l.Pairwise (fun a b => a.y ≤ b.y)) :
    List.Chain' (fun a b => b.y - a.y > gap) (pickAnchors gap l) := by
  cases l with
  | nil => simp [pickAnchors]
  | cons b rest =>
    exact anchorsAux_chain gap rest b hsort.chain'

lemma chain'_to_pairwise {α : Type} {R : α → α → Prop}
    (htrans : ∀ a b c, R a b → R b c → R a c) :
    ∀ {l : List α}, List.Chain' R l → l.Pairwise R
  | [], _ => List.Pairwise.nil
  | [_], _ => by simp
  | a :: b :: t, h => by
    rcases List.chain'_cons.mp h with ⟨hab, hbt⟩
    have ih := chain'_to_pairwise htrans hbt
    refine List.pairwise_cons.mpr ⟨?_, ih⟩
    intro x hx
    rcases List.mem_cons.mp hx with rfl | hx'
    · exact hab
    · exact htrans a b x hab (List.rel_of_pairwise_cons ih hx')

lemma thresholdOf_ge_40 (ys : List Int) : 40 ≤ thresholdOf ys :=
  le_max_left 40 _

lemma captureRows_pairwise (ys : List Int) :
    (captureRows ys).Pairwise (fun a b => b.y - a.y > thresholdOf ys) := by
  have hchain := pickAnchors_chain (thresholdOf ys) (sortedBuckets ys)
    (sortByKey_sorted Bucket.y (mkBuckets ys))
  have hge := thresholdOf_ge_40 ys
  exact chain'_to_pairwise (fun a b c h1 h2 => by omega) hchain

lemma captureRows_rows_pairwise (ys : List Int) :
    ((captureRows ys).map Bucket.y).Pairwise (fun a b => a + 4 < b) := by
  rw [List.pairwise_map]
  have hge := thresholdOf_ge_40 ys
  exact (captureRows_pairwise ys).imp (fun hab => by omega)

/-! ## Round-trip navigation -/

lemma takeWhile_len_gap (rows : List Int)
    (hp : rows.Pairwise (fun a b => a + 4 < b)) (c : Nat) (hc : c < rows.length) :
    (rows.takeWhile (fun y => decide (y ≤ rows.getD c 0 + 4))).length = c + 1 := by
  set T := rows.getD c 0 + 4 with hT
  have hspec := takeWhile_len_spec T rows
  set k := (rows.takeWhile (fun y => decide (y ≤ T))).length with hk
  have hkle : k ≤ rows.length := takeWhile_len_le _ rows
  have h1 : k ≤ c + 1 := by
    by_contra hcon
    have hc1k : c + 1 < k := by omega
    have hle := hspec.1 (c + 1) hc1k
    have hpc := pairwise_getD hp (show c < c + 1 by omega)
      (show c + 1 < rows.length by omega)
    omega
  have h2 : c + 1 ≤ k := by
    by_contra hcon
    have hkc : k ≤ c := by omega
    have hklt : k < rows.length := by omega
    have hTk := hspec.2 hklt
    rcases Nat.eq_or_lt_of_le hkc with heq | hlt
    · rw [heq] at hTk
      omega
    · have := pairwise_getD hp hlt hc
      omega
  omega

lemma scrollToIdx_spec (s : NavState) (i : Int) (hne : s.rows ≠ []) :
    (scrollToIdx s i).rows = s.rows ∧
    ((scrollToIdx s i).idx : Int) = max 0 (min i ((s.rows.length : Int) - 1)) ∧
    (scrollToIdx s i).idx < s.rows.length ∧
    (scrollToIdx s i).scrollTop = s.rows.getD (scrollToIdx s i).idx 0 := by
  have hL : 0 < s.rows.length := List.length_pos.mpr hne
  have hE : s.rows.isEmpty = false := by simpa [List.isEmpty_iff] using hne
  have hdef : scrollToIdx s i =
      NavState.mk s.rows ((max 0 (min i ((s.rows.length : Int) - 1))).toNat)
        (s.rows.getD ((max 0 (min i ((s.rows.length : Int) - 1))).toNat) 0) := by
    simp [scrollToIdx, hE]
  rw [hdef]
  refine ⟨rfl, ?_, ?_, rfl⟩
  · show ((max 0 (min i ((s.rows.length : Int) - 1))).toNat : Int) =
      max 0 (min i ((s.rows.length : Int) - 1))
    omega
  · show (max 0 (min i ((s.rows.length : Int) - 1))).toNat < s.rows.length
    omega

/-- C2: with the anchor list produced by row extraction (for any staff-line
geometry `ys`), `gotoIndex i` followed — once the scroll offset has settled
at the computed target — by `syncFromScroll` leaves the current index
exactly where `gotoIndex` put it; and for `i` already in range the index
`gotoIndex` put it at is `i` itself (otherwise it is `i` clamped). -/
theorem gotoIndex_syncFromScroll_roundtrip (ys : List Int) (s : NavState) (i : Int)
    (hrows : s.rows = (captureRows ys).map Bucket.y) (hne : s.rows ≠ []) :
    (syncIdxToScroll (scrollToIdx s i)).idx = (scrollToIdx s i).idx ∧
    (0 ≤ i → i < (s.rows.length : Int) → ((scrollToIdx s i).idx : Int) = i) := by
  have hp : s.rows.Pairwise (fun a b => a + 4 < b) := by
    rw [hrows]; exact captureRows_rows_pairwise ys
  obtain ⟨hr, hidx, hlt, hst⟩ := scrollToIdx_spec s i hne
  have hne' : (scrollToIdx s i).rows ≠ [] := by rw [hr]; exact hne
  constructor
  · rw [syncIdxToScroll_idx _ hne', hr, hst]
    unfold bestIdx
    rw [takeWhile_len_gap s.rows hp (scrollToIdx s i).idx hlt]
    omega
  · intro h0 hlen
    omega

/-- Witness for C2: a two-system geometry, navigating to index 1. -/
theorem gotoIndex_syncFromScroll_roundtrip_witness :
    (syncIdxToScroll (scrollToIdx ⟨[0, 100], 0, 0⟩ 1)).idx =
      (scrollToIdx ⟨[0, 100], 0, 0⟩ 1).idx ∧
    ((scrollToIdx ⟨[0, 100], 0, 0⟩ 1).idx : Int) = 1 := by
  have h := gotoIndex_syncFromScroll_roundtrip [0, 10, 20, 30, 100, 110, 120, 130]
    ⟨[0, 100], 0, 0⟩ 1 (by decide) (by decide)
  exact ⟨h.1, h.2 (by decide) (by decide)⟩

/-! ## Resize-triggered re-extraction -/

/-- C7 (amended): after a resize-triggered re-extraction whose new anchor
list is non-empty, the current index is recomputed from the present scroll
offset (the `syncIdxToScroll` scan at `scrollTop + 4`), lands in
`[0, r'-1]` for the new row count `r'` (never out of range, no exception),
and the view is re-anchored to that row; it is not blind-clamped to
`r'-1` and not reset except as the scroll-offset recomputation dictates. -/
theorem resize_reextraction_index (ys : List Int) (s : NavState)
    (hne : (captureRows ys).map Bucket.y ≠ []) :
    (resizeRecapture ys s).rows = (captureRows ys).map Bucket.y ∧
    (resizeRecapture ys s).idx =
      bestIdx ((captureRows ys).map Bucket.y) (s.scrollTop + 4) ∧
    (resizeRecapture ys s).idx < ((captureRows ys).map Bucket.y).length ∧
    (resizeRecapture ys s).scrollTop =
      ((captureRows ys).map Bucket.y).getD (resizeRecapture ys s).idx 0 := by
  set R := (captureRows ys).map Bucket.y with hR
  have hE : R.isEmpty = false := by simpa [List.isEmpty_iff] using hne
  set b := bestIdx R (s.scrollTop + 4) with hb
  have hblt : b < R.length := bestIdx_lt R _ hne
  have hcap : captureRowsState ys s = NavState.mk R b s.scrollTop := by
    simp [captureRowsState, syncIdxToScroll, hE, ← hR, ← hb]
  have hrr : resizeRecapture ys s =
      scrollToIdx (NavState.mk R b s.scrollTop) (b : Int) := by
    unfold resizeRecapture
    rw [hcap]
  obtain ⟨h1, h2, h3, h4⟩ :=
    scrollToIdx_spec (NavState.mk R b s.scrollTop) (b : Int) hne
  have h2' : ((scrollToIdx (NavState.mk R b s.scrollTop) (b : Int)).idx : Int) =
      max 0 (min (b : Int) ((R.length : Int) - 1)) := h2
  have hidx : (scrollToIdx (NavState.mk R b s.scrollTop) (b : Int)).idx = b := by
    omega
  refine ⟨?_, ?_, ?_, ?_⟩
  · rw [hrr]
    exact h1
  · rw [hrr, hidx]
  · rw [hrr, hidx]
    exact hblt
  · have h4' : (scrollToIdx (NavState.mk R b s.scrollTop) (b : Int)).scrollTop =
        R.getD (scrollToIdx (NavState.mk R b s.scrollTop) (b : Int)).idx 0 := h4
    rw [hidx] at h4'
    rw [hrr, hidx]
    exact h4'

/-- C7 counterexample: starting at index 2 with the viewport at the top, a
re-extraction that shrinks the row count to `r' = 2 < 2 + 1` ends with
index 0 (recomputed from the scroll offset), not the claim's `r' - 1 = 1`. -/
theorem resize_clamp_cex :
    resizeRecapture [0, 10, 20, 30, 100, 110, 120, 130] ⟨[0, 100, 200], 2, 0⟩ =
      ⟨[0, 100], 0, 0⟩ ∧
    (captureRows [0, 10, 20, 30, 100, 110, 120, 130]).length = 2 := by
  decide

/-- Witness for C7 at the same concrete re-extraction. -/
theorem resize_reextraction_index_witness :
    (resizeRecapture [0, 10, 20, 30, 100, 110, 120, 130] ⟨[0, 100, 200], 2, 0⟩).idx <
      ((captureRows [0, 10, 20, 30, 100, 110, 120, 130]).map Bucket.y).length :=
  (resize_reextraction_index [0, 10, 20, 30, 100, 110, 120, 130]
    ⟨[0, 100, 200], 2, 0⟩ (by decide)).2.2.1

/-! ## Input bindings -/

/-- C8: Down-arrow, Page-Down and Space run `next()` (`advance(+step)`) and
suppress the key's default action; Up-arrow and Page-Up run `prev()`
(`advance(-step)`) with the same suppression; every other key changes
nothing and does not suppress the default. -/
theorem onKeyDown_cases (s : NavState) (step : Int) (key : String) :
    ((key = "ArrowDown" ∨ key = "PageDown" ∨ key = " ") →
      onKeyDown s step key = (advance s step, true)) ∧
    ((key = "ArrowUp" ∨ key = "PageUp") →
      onKeyDown s step key = (advance s (-step), true)) ∧
    (¬(key = "ArrowDown" ∨ key = "PageDown" ∨ key = " ") →
     ¬(key = "ArrowUp" ∨ key = "PageUp") →
      onKeyDown s step key = (s, false)) := by
  have hdown : (key = "ArrowDown" ∨ key = "PageDown" ∨ key = " ") →
      (["ArrowDown", "PageDown", " "].contains key) = true := by
    rintro (rfl | rfl | rfl) <;> decide
  have hup : (key = "ArrowUp" ∨ key = "PageUp") →
      (["ArrowUp", "PageUp"].contains key) = true := by
    rintro (rfl | rfl) <;> decide
  have hdown' : ¬(key = "ArrowDown" ∨ key = "PageDown" ∨ key = " ") →
      (["ArrowDown", "PageDown", " "].contains key) = false := by
    intro h
    simp only [List.contains_eq_any_beq, List.any_cons, List.any_nil,
      Bool.or_eq_false_iff, beq_eq_false_iff_ne]
    tauto
  have hup' : ¬(key = "ArrowUp" ∨ key = "PageUp") →
      (["ArrowUp", "PageUp"].contains key) = false := by
    intro h
    simp only [List.contains_eq_any_beq, List.any_cons, List.any_nil,
      Bool.or_eq_false_iff, beq_eq_false_iff_ne]
    tauto
  refine ⟨?_, ?_, ?_⟩
  · intro h
    simp only [onKeyDown, hdown h, if_true]
    rfl
  · intro h
    have hnd : (["ArrowDown", "PageDown", " "].contains key) = false := by
      apply hdown'
      rintro (rfl | rfl | rfl) <;> rcases h with h | h <;> simp at h
    simp only [onKeyDown, hnd, Bool.false_eq_true, if_false, hup h, if_true]
    show (prev s step, true) = (advance s (-step), true)
    simp [prev, advance, Int.sub_eq_add_neg]
  · intro h1 h2
    simp only [onKeyDown, hdown' h1, hup' h2, Bool.false_eq_true, if_false]

/-- Witness for C8 on the three kinds of key. -/
theorem onKeyDown_cases_witness :
    onKeyDown ⟨[0, 100], 0, 0⟩ 1 "ArrowDown" = (advance ⟨[0, 100], 0, 0⟩ 1, true) ∧
    onKeyDown ⟨[0, 100], 0, 0⟩ 1 "PageUp" = (advance ⟨[0, 100], 0, 0⟩ (-1), true) ∧
    onKeyDown ⟨[0, 100], 0, 0⟩ 1 "x" = (⟨[0, 100], 0, 0⟩, false) :=
  ⟨(onKeyDown_cases ⟨[0, 100], 0, 0⟩ 1 "ArrowDown").1 (Or.inl rfl),
   (onKeyDown_cases ⟨[0, 100], 0, 0⟩ 1 "PageUp").2.1 (Or.inr rfl),
   (onKeyDown_cases ⟨[0, 100], 0, 0⟩ 1 "x").2.2 (by decide) (by decide)⟩

/-- C10: a primary-button (`button = 0`) tap whose X coordinate sits
exactly at the viewport's horizontal midpoint is treated as the right half
and runs `next()` (`advance(+step)`), because the split test is
`clientX - rect.left >= rect.width / 2`; a tap strictly left of the
midpoint runs `prev()` (`advance(-step)`); a non-primary button changes
nothing. -/
theorem onPointerDown_midpoint (s : NavState) (step : Int)
    (rectLeft rectWidth x : Rat) (b : Int) :
    (x - rectLeft = rectWidth / 2 →
      onPointerDown s step ⟨0, x⟩ rectLeft rectWidth = advance s step) ∧
    (x - rectLeft < rectWidth / 2 →
      onPointerDown s step ⟨0, x⟩ rectLeft rectWidth = advance s (-step)) ∧
    (b ≠ 0 → onPointerDown s step ⟨b, x⟩ rectLeft rectWidth = s) := by
  refine ⟨?_, ?_, ?_⟩
  · intro h
    simp only [onPointerDown, ne_eq, not_true_eq_false, if_false,
      ge_iff_le, le_of_eq h.symm, if_true]
    rfl
  · intro h
    simp only [onPointerDown, ne_eq, not_true_eq_false, if_false,
      ge_iff_le, not_le.mpr h, if_false]
    show prev s step = advance s (-step)
    simp [prev, advance, Int.sub_eq_add_neg]
  · intro h
    simp only [onPointerDown, ne_eq, h, not_false_eq_true, if_true]

/-- Witness for C10: viewport `[0, 100]`, taps at 50 (midpoint) and 49,
and a secondary-button tap. -/
theorem onPointerDown_midpoint_witness :
    onPointerDown ⟨[0, 100], 0, 0⟩ 1 ⟨0, 50⟩ 0 100 = advance ⟨[0, 100], 0, 0⟩ 1 ∧
    onPointerDown ⟨[0, 100], 0, 0⟩ 1 ⟨0, 49⟩ 0 100 = advance ⟨[0, 100], 0, 0⟩ (-1) ∧
    onPointerDown ⟨[0, 100], 0, 0⟩ 1 ⟨2, 50⟩ 0 100 = ⟨[0, 100], 0, 0⟩ :=
  ⟨(onPointerDown_midpoint ⟨[0, 100], 0, 0⟩ 1 0 100 50 2).1 (by norm_num),
   (onPointerDown_midpoint ⟨[0, 100], 0, 0⟩ 1 0 100 49 2).2.1 (by norm_num),
   (onPointerDown_midpoint ⟨[0, 100], 0, 0⟩ 1 0 100 50 2).2.2 (by norm_num)⟩

/-! ## Bucketing well-separated coordinates -/

lemma bucketsOf_append (l1 l2 : List Int) :
    ∀ i, bucketsOf (l1 ++ l2) i = bucketsOf l1 i ++ bucketsOf l2 (i + l1.length) := by
  induction l1 with
  | nil => intro i; simp [bucketsOf]
  | cons a t ih =>
    intro i
    simp only [List.cons_append, bucketsOf, List.length_cons]
    have h : i + 1 + t.length = i + (t.length + 1) := by omega
    rw [show t.append l2 = t ++ l2 from rfl, ih (i + 1), h]

lemma bucketsOf_map_y : ∀ (ys : List Int) (i : Nat), (bucketsOf ys i).map Bucket.y = ys
  | [], _ => rfl
  | y :: t, i => by simp [bucketsOf, bucketsOf_map_y t (i + 1)]

lemma mkBucketsAux_all_new :
    ∀ (ys : List Int) (i : Nat) (acc : List Bucket),
      (∀ b ∈ acc, ∀ y ∈ ys, b.y + 2 ≤ y) →
      ys.Pairwise (fun a b => a + 2 ≤ b) →
      mkBucketsAux i acc ys = acc ++ bucketsOf ys i
  | [], i, acc, _, _ => by simp [mkBucketsAux, bucketsOf]
  | y :: t, i, acc, hacc, hp => by
    rcases List.pairwise_cons.mp hp with ⟨hy, ht⟩
    have hnone : (acc.any (fun b => (b.y - y).natAbs < 2)) = false := by
      simp only [List.any_eq_false, decide_eq_true_eq]
      intro b hb
      have := hacc b hb y (List.mem_cons_self y t)
      omega
    have hacc' : ∀ b ∈ acc ++ [(⟨y, i⟩ : Bucket)], ∀ y' ∈ t, b.y + 2 ≤ y' := by
      intro b hb y' hy'
      rcases List.mem_append.mp hb with hb | hb
      · exact hacc b hb y' (List.mem_cons_of_mem y hy')
      · have hbe : b = ⟨y, i⟩ := by simpa using hb
        subst hbe
        exact hy y' hy'
    have hrec := mkBucketsAux_all_new t (i + 1) (acc ++ [(⟨y, i⟩ : Bucket)]) hacc' ht
    simp only [mkBucketsAux, hnone, Bool.false_eq_true, if_false]
    rw [hrec]
    simp [bucketsOf]

lemma mkBuckets_sep (ys : List Int) (hp : ys.Pairwise (fun a b => a + 2 ≤ b)) :
    mkBuckets ys = bucketsOf ys 0 := by
  unfold mkBuckets
  rw [mkBucketsAux_all_new ys 0 [] (by simp) hp]
  simp

lemma sortedBuckets_sep (ys : List Int) (hp : ys.Pairwise (fun a b => a + 2 ≤ b)) :
    sortedBuckets ys = bucketsOf ys 0 := by
  unfold sortedBuckets
  rw [mkBuckets_sep ys hp]
  apply sortByKey_eq_self
  have h1 : ((bucketsOf ys 0).map Bucket.y).Pairwise (· ≤ ·) := by
    rw [bucketsOf_map_y]
    exact hp.imp (fun h => by omega)
  exact List.pairwise_map.mp h1

lemma deltasOf_sep (ys : List Int) (hp : ys.Pairwise (fun a b => a + 2 ≤ b)) :
    deltasOf ys = diffs ys := by
  unfold deltasOf
  rw [sortedBuckets_sep ys hp, bucketsOf_map_y]

/-! ## Structure of the synthetic geometry -/

lemma diffs_cons_cons (a b : Int) (t : List Int) :
    diffs (a :: b :: t) = (b - a) :: diffs (b :: t) := rfl

lemma lines_succ (s : Int) (n : Nat) (d : Int) :
    systemLines s (n + 1) d = s :: systemLines (s + d) n d := by
  unfold systemLines
  rw [List.range_succ_eq_map, List.map_cons, List.map_map]
  have hfun : ((fun j : Nat => s + (j : Int) * d) ∘ Nat.succ)
      = fun j : Nat => (s + d) + (j : Int) * d := by
    funext j
    simp only [Function.comp_apply]
    push_cast
    ring
  rw [hfun]
  simp

lemma systemLines_length (s : Int) (n : Nat) (d : Int) :
    (systemLines s n d).length = n := by
  simp [systemLines]

lemma synthetic_cons (s : Int) (rest : List Int) (n : Nat) (d : Int) :
    synthetic (s :: rest) n d = systemLines s n d ++ synthetic rest n d := rfl

lemma synthetic_length (starts : List Int) (n : Nat) (d : Int) :
    (synthetic starts n d).length = starts.length * n := by
  induction starts with
  | nil => simp [synthetic]
  | cons s rest ih =>
    rw [synthetic_cons]
    simp [ih, systemLines_length]
    ring

lemma diffs_length : ∀ (l : List Int), (diffs l).length = l.length - 1
  | [] => rfl
  | [_] => rfl
  | a :: b :: t => by
    rw [diffs_cons_cons]
    simp [diffs_length (b :: t)]

lemma diffs_lines (d : Int) : ∀ (n : Nat) (s : Int),
    diffs (systemLines s (n + 1) d) = List.replicate n d
  | 0, s => by
    rw [lines_succ]
    simp [systemLines, diffs]
  | n + 1, s => by
    rw [lines_succ s (n + 1) d, lines_succ (s + d) n d, diffs_cons_cons,
      ← lines_succ (s + d) n d, diffs_lines d n (s + d)]
    rw [List.replicate_succ]
    congr 1
    ring

lemma diffs_lines_append (d z : Int) (L : List Int) : ∀ (n : Nat) (s : Int),
    diffs (systemLines s (n + 1) d ++ (z :: L)) =
      List.replicate n d ++ (z - (s + (n : Int) * d)) :: diffs (z :: L)
  | 0, s => by
    have h0 : systemLines (s + d) 0 d = [] := by simp [systemLines]
    rw [lines_succ, h0, List.cons_append, List.nil_append, diffs_cons_cons]
    simp

  | n + 1, s => by
    have h1 : systemLines s (n + 2) d ++ (z :: L)
        = s :: (systemLines (s + d) (n + 1) d ++ (z :: L)) := by
      rw [lines_succ s (n + 1) d, List.cons_append]
    have h2 : systemLines (s + d) (n + 1) d ++ (z :: L)
        = (s + d) :: (systemLines (s + d + d) n d ++ (z :: L)) := by
      rw [lines_succ (s + d) n d, List.cons_append]
    have hw : z - ((s + d) + (n : Int) * d) = z - (s + ((n + 1 : Nat) : Int) * d) := by
      push_cast
      ring
    have hh : s + d - s = d := by ring
    rw [h1, h2, diffs_cons_cons, ← h2, diffs_lines_append d z L n (s + d), hw, hh,
      List.replicate_succ, List.cons_append]

lemma synthetic_cons_head (s : Int) (rest : List Int) (m : Nat) (d : Int) :
    synthetic (s :: rest) (m + 1) d
      = s :: (systemLines (s + d) m d ++ synthetic rest (m + 1) d) := by
  rw [synthetic_cons, lines_succ, List.cons_append]

/-! ## The gap list of a synthetic geometry -/

lemma jsRound22_ge (d : Int) (hd : 0 ≤ d) : 2 * d ≤ jsRound22 d := by
  unfold jsRound22
  rw [Int.fdiv_eq_ediv] <;> omega

lemma jsRound22_le_40 (d : Int) (hd : 0 ≤ d) (h18 : d ≤ 18) : jsRound22 d ≤ 40 := by
  unfold jsRound22
  rw [Int.fdiv_eq_ediv] <;> omega

lemma diffs_synthetic_spec (m : Nat) (d G : Int) (hG : d ≤ G) :
    ∀ (starts : List Int) (s : Int),
      List.Chain' (fun a b => b - (a + (m : Int) * d) > G) (s :: starts) →
      ((diffs (synthetic (s :: starts) (m + 1) d)).count d
          = (s :: starts).length * m) ∧
      (∀ x ∈ diffs (synthetic (s :: starts) (m + 1) d), x = d ∨ x > G)
  | [], s, _ => by
    have h : synthetic [s] (m + 1) d = systemLines s (m + 1) d := by
      rw [synthetic_cons]
      simp [synthetic]
    rw [h, diffs_lines d m s]
    constructor
    · simp [List.count_replicate_self]
    · intro x hx
      exact Or.inl (List.eq_of_mem_replicate hx)
  | s' :: rest, s, hchain => by
    rcases List.chain'_cons.mp hchain with ⟨hj, hrest⟩
    have hhead : synthetic (s' :: rest) (m + 1) d
        = s' :: (systemLines (s' + d) m d ++ synthetic rest (m + 1) d) :=
      synthetic_cons_head s' rest m d
    have hsplit : synthetic (s :: s' :: rest) (m + 1) d
        = systemLines s (m + 1) d
            ++ (s' :: (systemLines (s' + d) m d ++ synthetic rest (m + 1) d)) := by
      rw [synthetic_cons, hhead]
    have hdiffs : diffs (synthetic (s :: s' :: rest) (m + 1) d)
        = List.replicate m d
            ++ (s' - (s + (m : Int) * d)) :: diffs (synthetic (s' :: rest) (m + 1) d) := by
      rw [hsplit, diffs_lines_append, ← hhead]
    obtain ⟨ihc, ihm⟩ := diffs_synthetic_spec m d G hG rest s' hrest
    constructor
    · rw [hdiffs, List.count_append, List.count_cons]
      have hif : (s' - (s + (m : Int) * d) == d) = false := by
        simp only [beq_eq_false_iff_ne, ne_eq]
        omega
      rw [hif]
      simp only [Bool.false_eq_true, if_false, add_zero, List.count_replicate_self, ihc,
        List.length_cons]
      ring
    · intro x hx
      rw [hdiffs] at hx
      rcases List.mem_append.mp hx with hx | hx
      · exact Or.inl (List.eq_of_mem_replicate hx)
      · rcases List.mem_cons.mp hx with rfl | hx
        · exact Or.inr (by omega)
        · exact ihm x hx

/-! ## The median of the sorted gap list -/

lemma sorted_prefix_count : ∀ (S : List Int) (v : Int) (j : Nat),
    S.Pairwise (· ≤ ·) → (∀ x ∈ S, v ≤ x) → j < S.count v → S.getD j 0 = v
  | [], _, j, _, _, hc => by simp at hc
  | a :: t, v, j, hp, hv, hc => by
    rcases List.pairwise_cons.mp hp with ⟨ha, ht⟩
    by_cases hav : a = v
    · subst hav
      cases j with
      | zero => simp
      | succ j' =>
        rw [List.getD_cons_succ]
        refine sorted_prefix_count t a j' ht
          (fun x hx => hv x (List.mem_cons_of_mem a hx)) ?_
        rw [List.count_cons_self] at hc
        omega
    · exfalso
      have hva : v < a := lt_of_le_of_ne (hv a (List.mem_cons_self a t)) (Ne.symm hav)
      have hnt : v ∉ t := by
        intro hvt
        have := ha v hvt
        omega
      have h0 : (a :: t).count v = 0 := by
        rw [List.count_cons]
        simp [List.count_eq_zero.mpr hnt, hav]
      omega

lemma medianOf_eq_of_count (ds : List Int) (v : Int) (hne : ds ≠ [])
    (hmem : ∀ x ∈ ds, v ≤ x) (hcount : (ds.length - 1) / 2 < ds.count v) :
    medianOf ds = v := by
  have hperm : (sortByKey id ds).Perm ds := sortByKey_perm id ds
  have hlen : (sortByKey id ds).length = ds.length := hperm.length_eq
  have hcnt : (sortByKey id ds).count v = ds.count v := hperm.count_eq v
  have hsorted : (sortByKey id ds).Pairwise (· ≤ ·) := sortByKey_sorted id ds
  have hmem' : ∀ x ∈ sortByKey id ds, v ≤ x :=
    fun x hx => hmem x (hperm.mem_iff.mp hx)
  have hne0 : ¬ (sortByKey id ds).length = 0 := by
    rw [hlen]
    simpa [List.length_eq_zero] using hne
  simp only [medianOf]
  rw [if_neg hne0]
  exact sorted_prefix_count _ v _ hsorted hmem' (by omega)

/-! ## Walking the sorted buckets of a synthetic geometry -/

lemma anchorsAux_cons_pos (G : Int) (p c : Bucket) (t : List Bucket)
    (h : c.y - p.y > G) : anchorsAux G p (c :: t) = c :: anchorsAux G c t := by
  simp [anchorsAux, h]

lemma anchorsAux_cons_neg (G : Int) (p c : Bucket) (t : List Bucket)
    (h : ¬(c.y - p.y > G)) : anchorsAux G p (c :: t) = anchorsAux G c t := by
  simp [anchorsAux, h]

lemma chain2_of_diffs : ∀ (l : List Int), (∀ x ∈ diffs l, 2 ≤ x) →
    List.Chain' (fun a b => a + 2 ≤ b) l
  | [], _ => List.chain'_nil
  | [_], _ => List.chain'_singleton _
  | a :: b :: t, h => by
    rw [diffs_cons_cons] at h
    refine List.chain'_cons.mpr ⟨?_, chain2_of_diffs (b :: t) ?_⟩
    · have := h (b - a) (List.mem_cons_self _ _)
      omega
    · intro x hx
      exact h x (List.mem_cons_of_mem _ hx)

lemma d_le_floorGap (d : Int) (hd : 2 ≤ d) : d ≤ max 40 (jsRound22 d) := by
  have h1 := jsRound22_ge d (by omega)
  have h2 : jsRound22 d ≤ max 40 (jsRound22 d) := le_max_right _ _
  omega

lemma synthetic_pairwise (m : Nat) (d : Int) (hd : 2 ≤ d) (starts : List Int) (s : Int)
    (hchain : List.Chain' (fun a b => b - (a + (m : Int) * d) > max 40 (jsRound22 d))
      (s :: starts)) :
    (synthetic (s :: starts) (m + 1) d).Pairwise (fun a b => a + 2 ≤ b) := by
  have hG : d ≤ max 40 (jsRound22 d) := d_le_floorGap d hd
  obtain ⟨_, hmem⟩ := diffs_synthetic_spec m d _ hG starts s hchain
  have hchain2 : List.Chain' (fun a b => a + 2 ≤ b) (synthetic (s :: starts) (m + 1) d) := by
    apply chain2_of_diffs
    intro x hx
    rcases hmem x hx with rfl | hgt
    · omega
    · have h40 : (40 : Int) ≤ max 40 (jsRound22 d) := le_max_left _ _
      omega
  exact chain'_to_pairwise (fun a b c h1 h2 => by omega) hchain2

lemma anchorsAux_skip_lines (G d : Int) (hd : 0 ≤ d) (hdG : d ≤ G) :
    ∀ (n : Nat) (s : Int) (i : Nat) (rest : List Bucket),
      anchorsAux G ⟨s, i⟩ (bucketsOf (systemLines (s + d) n d) (i + 1) ++ rest)
        = anchorsAux G ⟨s + (n : Int) * d, i + n⟩ rest
  | 0, s, i, rest => by
    simp [systemLines, bucketsOf]
  | n + 1, s, i, rest => by
    rw [lines_succ (s + d) n d]
    simp only [bucketsOf, List.cons_append]
    rw [anchorsAux_cons_neg G ⟨s, i⟩ ⟨s + d, i + 1⟩ _
      (show ¬(s + d - s > G) by omega)]
    rw [anchorsAux_skip_lines G d hd hdG n (s + d) (i + 1) rest]
    have hprev : (⟨(s + d) + (n : Int) * d, (i + 1) + n⟩ : Bucket)
        = ⟨s + ((n + 1 : Nat) : Int) * d, i + (n + 1)⟩ := by
      rw [Bucket.mk.injEq]
      constructor
      · push_cast
        ring
      · omega
    rw [hprev]

lemma anchorsAux_synthetic (G d : Int) (hd : 0 ≤ d) (hdG : d ≤ G) (m : Nat) :
    ∀ (starts : List Int) (sp : Int) (ip : Nat),
      List.Chain' (fun a b => b - (a + (m : Int) * d) > G) (sp :: starts) →
      anchorsAux G ⟨sp + (m : Int) * d, ip + m⟩
          (bucketsOf (synthetic starts (m + 1) d) (ip + m + 1))
        = specFirstLineAnchors starts (m + 1) (ip + m + 1)
  | [], sp, ip, _ => by
    simp [synthetic, bucketsOf, specFirstLineAnchors, anchorsAux]
  | s' :: rest, sp, ip, hchain => by
    rcases List.chain'_cons.mp hchain with ⟨hj, hrest⟩
    rw [synthetic_cons_head s' rest m d]
    simp only [bucketsOf]
    rw [bucketsOf_append, systemLines_length]
    rw [anchorsAux_cons_pos G ⟨sp + (m : Int) * d, ip + m⟩ ⟨s', ip + m + 1⟩ _
      (show s' - (sp + (m : Int) * d) > G from hj)]
    rw [anchorsAux_skip_lines G d hd hdG m s' (ip + m + 1) _]
    have hoff : (ip + m + 1) + 1 + m = (ip + m + 1) + m + 1 := by omega
    rw [hoff]
    rw [anchorsAux_synthetic G d hd hdG m rest s' (ip + m + 1) hrest]
    simp only [specFirstLineAnchors]
    have hoff2 : (ip + m + 1) + m + 1 = (ip + m + 1) + (m + 1) := by omega
    rw [hoff2]

/-! ## The derived threshold on a synthetic geometry -/

lemma thresholdOf_synthetic (m : Nat) (d : Int) (hm : 1 ≤ m) (hd : 2 ≤ d)
    (s : Int) (starts : List Int)
    (hchain : List.Chain' (fun a b => b - (a + (m : Int) * d) > max 40 (jsRound22 d))
      (s :: starts)) :
    thresholdOf (synthetic (s :: starts) (m + 1) d) = max 40 (jsRound22 d) := by
  have hG : d ≤ max 40 (jsRound22 d) := d_le_floorGap d hd
  have hpair := synthetic_pairwise m d hd starts s hchain
  have hdel := deltasOf_sep _ hpair
  obtain ⟨hcount, hmem⟩ := diffs_synthetic_spec m d _ hG starts s hchain
  have hlen : (diffs (synthetic (s :: starts) (m + 1) d)).length
      = (s :: starts).length * (m + 1) - 1 := by
    rw [diffs_length, synthetic_length]
  have hk : 1 ≤ (s :: starts).length := by simp
  have hkm : (s :: starts).length * (m + 1)
      = (s :: starts).length * m + (s :: starts).length := by ring
  have hk1 : (s :: starts).length ≤ (s :: starts).length * m :=
    Nat.le_mul_of_pos_right _ (by omega)
  have hne : diffs (synthetic (s :: starts) (m + 1) d) ≠ [] := by
    intro h
    have h0 : (diffs (synthetic (s :: starts) (m + 1) d)).length = 0 := by
      rw [h]
      rfl
    omega
  have hmedian : medianOf (diffs (synthetic (s :: starts) (m + 1) d)) = d := by
    apply medianOf_eq_of_count _ d hne
    · intro x hx
      rcases hmem x hx with rfl | hgt
      · exact le_refl x
      · have h40 : (40 : Int) ≤ max 40 (jsRound22 d) := le_max_left _ _
        omega
    · rw [hlen, hcount]
      omega
  unfold thresholdOf gapThreshold
  rw [hdel, hmedian]

/-! ## Clustering correctness on synthetic geometries -/

lemma captureRows_synthetic_eq (m : Nat) (d : Int) (hm : 1 ≤ m) (hd : 2 ≤ d)
    (starts : List Int)
    (hchain : List.Chain' (fun a b => b - (a + (m : Int) * d) > max 40 (jsRound22 d))
      starts) :
    captureRows (synthetic starts (m + 1) d) = specFirstLineAnchors starts (m + 1) 0 := by
  cases starts with
  | nil => rfl
  | cons s rest =>
    have hG : d ≤ max 40 (jsRound22 d) := d_le_floorGap d hd
    have hpair := synthetic_pairwise m d hd rest s hchain
    have hthr := thresholdOf_synthetic m d hm hd s rest hchain
    unfold captureRows
    rw [hthr, sortedBuckets_sep _ hpair]
    rw [synthetic_cons_head s rest m d]
    simp only [bucketsOf]
    rw [bucketsOf_append, systemLines_length]
    simp only [pickAnchors]
    rw [anchorsAux_skip_lines (max 40 (jsRound22 d)) d (by omega) hG m s 0 _]
    have hoff : 0 + 1 + m = 0 + m + 1 := by omega
    rw [hoff]
    rw [anchorsAux_synthetic (max 40 (jsRound22 d)) d (by omega) hG m rest s 0 hchain]
    simp only [specFirstLineAnchors]
    norm_num

lemma spec_map_y : ∀ (starts : List Int) (n b : Nat),
    (specFirstLineAnchors starts n b).map Bucket.y = starts
  | [], _, _ => rfl
  | s :: rest, n, b => by
    simp [specFirstLineAnchors, spec_map_y rest n (b + n)]

lemma spec_length : ∀ (starts : List Int) (n b : Nat),
    (specFirstLineAnchors starts n b).length = starts.length
  | [], _, _ => rfl
  | s :: rest, n, b => by
    simp [specFirstLineAnchors, spec_length rest n (b + n)]

/-- C1 (amended): for `k` systems of `n ≥ 2` lines each with within-system
spacing `d ≥ 2` px and between-system spacing strictly greater than the
derived threshold `max(40, round(2.2*d))` (the claim's `≥ 2.2*d` alone is
not enough; see the counterexample), extraction yields exactly `k`
anchors, in ascending Y order, each carrying the Y position and the
discovery identity of the first staff line of its system. -/
theorem captureRows_synthetic_correct (starts : List Int) (n : Nat) (d : Int)
    (hn : 2 ≤ n) (hd : 2 ≤ d)
    (hgap : List.Chain' (fun a b => b - (a + ((n : Int) - 1) * d) > max 40 (jsRound22 d))
      starts) :
    captureRows (synthetic starts n d) = specFirstLineAnchors starts n 0 ∧
    (captureRows (synthetic starts n d)).map Bucket.y = starts ∧
    (captureRows (synthetic starts n d)).length = starts.length ∧
    List.Chain' (· < ·) ((captureRows (synthetic starts n d)).map Bucket.y) := by
  obtain ⟨m, rfl⟩ : ∃ m, n = m + 1 := ⟨n - 1, by omega⟩
  have hm : 1 ≤ m := by omega
  have hcast : ((m + 1 : Nat) : Int) - 1 = (m : Int) := by push_cast; ring
  rw [hcast] at hgap
  have heq := captureRows_synthetic_eq m d hm hd starts hgap
  refine ⟨heq, ?_, ?_, ?_⟩
  · rw [heq, spec_map_y]
  · rw [heq, spec_length]
  · rw [heq, spec_map_y]
    refine hgap.imp ?_
    intro a b hab
    have h40 : (40 : Int) ≤ max 40 (jsRound22 d) := le_max_left _ _
    have hmd : 0 ≤ (m : Int) * d := mul_nonneg (by positivity) (by omega)
    omega

/-- Witness for C1: two systems of four lines, spacing 10, starts 0 and 100. -/
theorem captureRows_synthetic_correct_witness :
    captureRows (synthetic [0, 100] 4 10) = specFirstLineAnchors [0, 100] 4 0 ∧
    (captureRows (synthetic [0, 100] 4 10)).map Bucket.y = [0, 100] := by
  have h := captureRows_synthetic_correct [0, 100] 4 10 (by omega) (by omega)
    (by rw [List.chain'_pair]; decide)
  exact ⟨h.1, h.2.1⟩

/-- C1 counterexample: two systems of four lines with spacing `d = 10` and
between-system gap `22 ≥ 2.2 * d` (`11 * 10 ≤ 5 * 22`), yet below the
40 px floor: extraction yields 1 anchor, not `k = 2`. -/
theorem captureRows_floor_cex :
    (11 : Int) * 10 ≤ 5 * 22 ∧
    captureRows [0, 10, 20, 30, 52, 62, 72, 82] = [⟨0, 0⟩] := by
  decide

/-- C3 (amended): the threshold is `GAP = max(40, round(median * 2.2))`
with `median` the lower-median of the sorted consecutive bucket gaps and 0
when there are no gaps; for a single system of `n ≥ 1` lines with spacing
`2 ≤ d ≤ 18` (so `round(2.2*d) ≤ 40`; in particular whenever the median is
0) the threshold is exactly 40 and extraction yields exactly 1 anchor.
For `d ≥ 19` the one-system threshold exceeds 40 (see the
counterexample), though extraction still yields 1 anchor. -/
theorem oneSystem_threshold_floor (s : Int) (n : Nat) (d : Int)
    (hn : 1 ≤ n) (hd : 2 ≤ d) (hd18 : d ≤ 18) :
    thresholdOf (systemLines s n d) = 40 ∧
    captureRows (systemLines s n d) = [⟨s, 0⟩] := by
  have hsyn : systemLines s n d = synthetic [s] n d := by
    rw [synthetic_cons]
    simp [synthetic]
  cases n with
  | zero => omega
  | succ m =>
    cases m with
    | zero =>
      have hl : systemLines s 1 d = [s] := by
        rw [lines_succ]
        simp [systemLines]
      have hpair : ([s] : List Int).Pairwise (fun a b => a + 2 ≤ b) := by simp
      have hthr : thresholdOf [s] = 40 := by
        have hdel : deltasOf [s] = diffs [s] := deltasOf_sep [s] hpair
        unfold thresholdOf gapThreshold
        rw [hdel]
        rfl
      refine ⟨?_, ?_⟩
      · rw [hl]
        exact hthr
      · rw [hl]
        unfold captureRows
        rw [hthr, sortedBuckets_sep [s] hpair]
        rfl
    | succ m' =>
      have hchain : List.Chain'
          (fun a b => b - (a + ((m' + 1 : Nat) : Int) * d) > max 40 (jsRound22 d))
          [s] := List.chain'_singleton s
      have hmax : max 40 (jsRound22 d) = 40 :=
        max_eq_left (jsRound22_le_40 d (by omega) hd18)
      refine ⟨?_, ?_⟩
      · rw [hsyn, thresholdOf_synthetic (m' + 1) d (by omega) hd s [] hchain, hmax]
      · rw [hsyn, captureRows_synthetic_eq (m' + 1) d (by omega) hd [s] hchain]
        rfl

/-- Witness for C3: one system of four lines, spacing 10, starting at 5. -/
theorem oneSystem_threshold_floor_witness :
    thresholdOf (systemLines 5 4 10) = 40 ∧
    captureRows (systemLines 5 4 10) = [⟨5, 0⟩] :=
  oneSystem_threshold_floor 5 4 10 (by omega) (by omega) (by omega)

/-- C3 counterexample: a single system of five staff lines spaced 20 px
(lower-median gap 20, not 0) yields threshold `round(20 * 2.2) = 44`, not
40, though extraction still returns exactly one anchor. -/
theorem oneSystem_threshold_cex :
    thresholdOf [0, 20, 40, 60, 80] = 44 ∧
    captureRows [0, 20, 40, 60, 80] = [⟨0, 0⟩] := by
  decide
